import Mathlib

/-!
Verification of the specter NIF registry layer.

The file embeds the code of `src/native/specter_nif/src/lib.rs` (the exported
NIF surface and `on_load`) and a model of the registry core (Resource Table,
Handle Allocator, Configuration Store, Resource Constructors, Boundary
Adapter).  The registry core lives in the crate modules `state`, `config` and
`atoms`, which are not present under `src/`; those parts are modelled from the
specification, as marked on each definition.
-/

namespace Specter

/-- The list of NIF functions exported by `rustler::init!` in
`src/native/specter_nif/src/lib.rs` (lines 12-25), in the order they appear. -/
def exportedNifs : List String :=
  ["get_config", "init", "media_engine_exists", "new_api", "new_media_engine",
   "new_peer_connection", "new_registry", "registry_exists"]

/-- Whether an exported NIF name is an existence check, by its
`_exists` name suffix. -/
def nameIsExistsCheck (s : String) : Bool :=
  List.isSuffixOf "_exists".toList s.toList

/-- Opaque model of a host-runtime environment argument (`rustler::Env`). -/
structure Env where
  envId : Nat

/-- Opaque model of a host-runtime term argument (`rustler::Term`). -/
structure Term where
  termId : Nat

/-- Names of native resource types that `on_load` can register with the host
runtime.  `lib.rs` registers exactly one, `state::Ref`. -/
inductive ResourceTypeName
  | stateRef
deriving DecidableEq, Repr

/-- The observable outcome of the module-load callback: which resource types
were registered, and the boolean it returns. -/
structure LoadResult where
  registeredResourceTypes : List ResourceTypeName
  result : Bool
deriving DecidableEq, Repr

/-- Embedding of `on_load` from `src/native/specter_nif/src/lib.rs` (lines
7-10): it registers the single resource type `state::Ref` and returns `true`,
ignoring the load-info term. -/
def on_load (_env : Env) (_info : Term) : LoadResult :=
  { registeredResourceTypes := [ResourceTypeName.stateRef], result := true }

/-- Modelled from the spec: the closed set of resource kinds
(API / MediaEngine / PeerConnection / Registry / Configuration) of §3 and
§9; the crate module `state` that defines the tagged resource type is not
under `src/`. -/
inductive Kind
  | configuration
  | registry
  | mediaEngine
  | api
  | peerConnection
deriving DecidableEq, Repr

/-- Modelled from the spec: a handle is an opaque integer, unique for the
lifetime of the process (§3). -/
abbrev Handle := Nat

/-- Modelled from the spec: an immutable, validated configuration value
(§3, §4.3); the crate module `config` is not under `src/`.  Validated ICE
server URLs stand in for the full settings record. -/
structure Config where
  iceServerUrls : List String
deriving DecidableEq, Repr

/-- Modelled from the spec: raw, not-yet-validated settings passed to the
Configuration Store (§4.3). -/
structure RawSettings where
  iceServerUrls : List String
deriving DecidableEq, Repr

/-- Modelled from the spec: resource-specific settings passed to a
constructor; the underlying engine may reject malformed settings (§4.4
step 3), abstracted here as a well-formedness flag. -/
structure Settings where
  wellFormed : Bool
deriving DecidableEq, Repr

/-- Modelled from the spec: a type-tagged native resource stored in the
Resource Table (§2, §9: a closed tagged-variant type).  Dependent kinds
record the handle of the dependency they were constructed from (§3). -/
inductive Resource
  | configuration (cfg : Config)
  | registry
  | mediaEngine (registryHandle : Handle)
  | api (mediaEngineHandle : Handle)
  | peerConnection (apiHandle : Handle)
deriving DecidableEq, Repr

/-- The kind tag of a stored resource. -/
def Resource.kind : Resource → Kind
  | .configuration _ => .configuration
  | .registry => .registry
  | .mediaEngine _ => .mediaEngine
  | .api _ => .api
  | .peerConnection _ => .peerConnection

/-- Modelled from the spec: the registry state, combining the Handle
Allocator counter (§4.1, monotonically increasing) and the Resource Table
(§4.2), modelled as an association list from handle to resource. -/
structure State where
  nextHandle : Handle
  table : List (Handle × Resource)
deriving DecidableEq, Repr

/-- Modelled from the spec: `init` performs the process-wide setup (§6),
producing the empty registry state with the allocator at its start value. -/
def init : State := { nextHandle := 0, table := [] }

/-- Modelled from the spec: the Handle Allocator (§4.1), issuing strictly
increasing, process-unique handles; called once per successful
construction. -/
def allocate (s : State) : Handle × State :=
  (s.nextHandle, { s with nextHandle := s.nextHandle + 1 })

/-- First entry of the table with the given handle, if any. -/
def findEntry (h : Handle) : List (Handle × Resource) → Option (Handle × Resource)
  | [] => none
  | p :: rest => if p.1 = h then some p else findEntry h rest

/-- Whether the table already holds an entry under the given handle. -/
def containsHandle (h : Handle) : List (Handle × Resource) → Bool
  | [] => false
  | p :: rest => if p.1 = h then true else containsHandle h rest

/-- Modelled from the spec: the only failure of Resource Table `insert` is a
duplicate handle, a programming invariant violation (§4.2). -/
inductive InsertError
  | duplicateHandle
deriving DecidableEq, Repr

/-- Modelled from the spec: Resource Table `insert` (§4.2) registers a
freshly constructed resource; it fails only on a duplicate handle. -/
def insert (s : State) (h : Handle) (r : Resource) : Except InsertError State :=
  if containsHandle h s.table then Except.error InsertError.duplicateHandle
  else Except.ok { s with table := (h, r) :: s.table }

/-- Modelled from the spec: Resource Table `lookup` (§4.2), scoped to a
kind; returns "not found" when the handle is absent or the kind
mismatches. -/
def lookup (s : State) (h : Handle) (k : Kind) : Option Resource :=
  match findEntry h s.table with
  | some p => if p.2.kind = k then some p.2 else none
  | none => none

/-- Modelled from the spec: Resource Table `exists` (§4.2), an existence
check scoped to a kind; never panics, returns `false` on unknown handles. -/
def existsKind (s : State) (h : Handle) (k : Kind) : Bool :=
  (lookup s h k).isSome

/-- Modelled from the spec: the exported `registry_exists` check (§4.2, §6). -/
def registry_exists (s : State) (h : Handle) : Bool :=
  existsKind s h Kind.registry

/-- Modelled from the spec: the exported `media_engine_exists` check
(§4.2, §6). -/
def media_engine_exists (s : State) (h : Handle) : Bool :=
  existsKind s h Kind.mediaEngine

/-- Modelled from the spec: `get_config` (§4.2, §6), the read accessor of
the Configuration Store, with the same not-found semantics as `lookup`. -/
def get_config (s : State) (h : Handle) : Option Config :=
  match lookup s h Kind.configuration with
  | some (Resource.configuration c) => some c
  | _ => none

/-- Modelled from the spec: the error taxonomy of §7 — validation error,
dependency-not-found, underlying-engine error, and the generic internal
error surfaced for invariant violations. -/
inductive SpecError
  | configError (msg : String)
  | dependencyNotFound (h : Handle)
  | engineError (msg : String)
  | internalError
deriving DecidableEq, Repr

/-- Modelled from the spec: an ICE server URL is well-formed when it uses
one of the stun/turn schemes (§4.3 names malformed ICE server URLs as the
validation failure). -/
def validUrl (u : String) : Bool :=
  List.isPrefixOf "stun:".toList u.toList ||
    List.isPrefixOf "stuns:".toList u.toList ||
    List.isPrefixOf "turn:".toList u.toList ||
    List.isPrefixOf "turns:".toList u.toList

/-- Modelled from the spec: validation of raw settings by the Configuration
Store (§4.3), producing a validated `Config` or a descriptive error. -/
def validateSettings (raw : RawSettings) : Except String Config :=
  if raw.iceServerUrls.all validUrl then Except.ok { iceServerUrls := raw.iceServerUrls }
  else Except.error "malformed ICE server URL"

/-- Modelled from the spec: the fallible underlying-engine construction
routine of §4.4 step 3; it rejects malformed settings. -/
def engineBuild (st : Settings) : Except String Unit :=
  if st.wellFormed then Except.ok () else Except.error "engine rejected settings"

/-- Modelled from the spec: the common tail of every constructor (§4.4
step 4): allocate a fresh handle and register the resource; a duplicate
handle is surfaced as a generic internal error (§7) with the state left
unchanged. -/
def register (s : State) (r : Resource) : Except SpecError Handle × State :=
  let a := allocate s
  match insert a.2 a.1 r with
  | Except.ok s2 => (Except.ok a.1, s2)
  | Except.error _ => (Except.error SpecError.internalError, s)

/-- Modelled from the spec: `new_config` (§4.3, §6): validates raw settings
before registering; on validation failure returns a descriptive error
without registering a handle. -/
def new_config (s : State) (raw : RawSettings) : Except SpecError Handle × State :=
  match validateSettings raw with
  | Except.error msg => (Except.error (SpecError.configError msg), s)
  | Except.ok cfg => register s (Resource.configuration cfg)

/-- Modelled from the spec: `new_registry` (§4.4, §6): created standalone,
no dependencies. -/
def new_registry (s : State) : Except SpecError Handle × State :=
  register s Resource.registry

/-- Modelled from the spec: `new_media_engine` (§4.4, §6): resolves its
Registry dependency, fails with dependency-not-found if the resolution
misses, then runs the fallible engine construction. -/
def new_media_engine (s : State) (h : Handle) (st : Settings) :
    Except SpecError Handle × State :=
  match lookup s h Kind.registry with
  | none => (Except.error (SpecError.dependencyNotFound h), s)
  | some _ =>
    match engineBuild st with
    | Except.error msg => (Except.error (SpecError.engineError msg), s)
    | Except.ok _ => register s (Resource.mediaEngine h)

/-- Modelled from the spec: `new_api` (§4.4, §6): resolves its MediaEngine
dependency, fails with dependency-not-found if the resolution misses. -/
def new_api (s : State) (h : Handle) (st : Settings) :
    Except SpecError Handle × State :=
  match lookup s h Kind.mediaEngine with
  | none => (Except.error (SpecError.dependencyNotFound h), s)
  | some _ =>
    match engineBuild st with
    | Except.error msg => (Except.error (SpecError.engineError msg), s)
    | Except.ok _ => register s (Resource.api h)

/-- Modelled from the spec: `new_peer_connection` (§4.4, §6): resolves its
API dependency, fails with dependency-not-found if the resolution misses. -/
def new_peer_connection (s : State) (h : Handle) (st : Settings) :
    Except SpecError Handle × State :=
  match lookup s h Kind.api with
  | none => (Except.error (SpecError.dependencyNotFound h), s)
  | some _ =>
    match engineBuild st with
    | Except.error msg => (Except.error (SpecError.engineError msg), s)
    | Except.ok _ => register s (Resource.peerConnection h)

/-- A single boundary call into the registry core, with its arguments. -/
inductive Op
  | opNewConfig (raw : RawSettings)
  | opNewRegistry
  | opNewMediaEngine (h : Handle) (st : Settings)
  | opNewApi (h : Handle) (st : Settings)
  | opNewPeerConnection (h : Handle) (st : Settings)
deriving DecidableEq, Repr

/-- Dispatch of one boundary call (the Boundary Adapter, §4.5): every call
returns a result value and the successor state. -/
def step (s : State) : Op → Except SpecError Handle × State
  | .opNewConfig raw => new_config s raw
  | .opNewRegistry => new_registry s
  | .opNewMediaEngine h st => new_media_engine s h st
  | .opNewApi h st => new_api s h st
  | .opNewPeerConnection h st => new_peer_connection s h st

/-- The state after a sequence of boundary calls. -/
def run (s : State) : List Op → State
  | [] => s
  | op :: ops => run (step s op).2 ops

/-- The results returned to the caller along a sequence of boundary calls. -/
def runOutputs (s : State) : List Op → List (Except SpecError Handle)
  | [] => []
  | op :: ops => (step s op).1 :: runOutputs (step s op).2 ops

/-- The handles among a list of call results (the successfully issued
handles). -/
def okHandles : List (Except SpecError Handle) → List Handle
  | [] => []
  | Except.ok h :: rest => h :: okHandles rest
  | Except.error _ :: rest => okHandles rest

/-- Registry-state invariant: every registered handle is below the
allocator counter, and no handle is registered twice. -/
def Inv (s : State) : Prop :=
  (∀ p ∈ s.table, p.1 < s.nextHandle) ∧ (s.table.map Prod.fst).Nodup

theorem inv_init : Inv init := by
  constructor <;> simp [init]

theorem containsHandle_eq_true {h : Handle} {l : List (Handle × Resource)} :
    containsHandle h l = true ↔ h ∈ l.map Prod.fst := by
  induction l with
  | nil => simp [containsHandle]
  | cons p rest ih =>
    by_cases hp : p.1 = h
    · simp [containsHandle, hp]
    · simp only [containsHandle, if_neg hp, ih, List.map_cons, List.mem_cons]
      constructor
      · exact Or.inr
      · rintro (hc | hc)
        · exact absurd hc.symm hp
        · exact hc

theorem containsHandle_eq_false_of_lt {s : State} (hInv : Inv s) :
    containsHandle s.nextHandle s.table = false := by
  rcases Bool.eq_false_or_eq_true (containsHandle s.nextHandle s.table) with hc | hc
  · exfalso
    rcases List.mem_map.mp (containsHandle_eq_true.mp hc) with ⟨p, hmem, hkey⟩
    exact absurd (hkey ▸ hInv.1 p hmem) (lt_irrefl _)
  · exact hc

theorem register_ok {s : State} (hInv : Inv s) (r : Resource) :
    register s r = (Except.ok s.nextHandle,
      { nextHandle := s.nextHandle + 1, table := (s.nextHandle, r) :: s.table }) := by
  simp [register, allocate, insert, containsHandle_eq_false_of_lt hInv]

theorem step_shape (s : State) (op : Op) :
    (∃ r, step s op = (Except.ok s.nextHandle,
        { nextHandle := s.nextHandle + 1, table := (s.nextHandle, r) :: s.table })) ∨
    (∃ e, step s op = (Except.error e, s)) := by
  have hreg : ∀ r : Resource,
      (∃ r2, register s r = (Except.ok s.nextHandle,
        { nextHandle := s.nextHandle + 1, table := (s.nextHandle, r2) :: s.table })) ∨
      (∃ e, register s r = (Except.error e, s)) := by
    intro r
    unfold register allocate insert
    by_cases hc : containsHandle s.nextHandle s.table
    · exact Or.inr ⟨SpecError.internalError, by simp [hc]⟩
    · exact Or.inl ⟨r, by simp [hc]⟩
  cases op with
  | opNewConfig raw =>
    simp only [step, new_config]
    cases validateSettings raw with
    | error msg => exact Or.inr ⟨SpecError.configError msg, rfl⟩
    | ok cfg => exact hreg (Resource.configuration cfg)
  | opNewRegistry =>
    exact hreg Resource.registry
  | opNewMediaEngine h st =>
    simp only [step, new_media_engine]
    cases lookup s h Kind.registry with
    | none => exact Or.inr ⟨SpecError.dependencyNotFound h, rfl⟩
    | some r =>
      cases hb : engineBuild st with
      | error msg => exact Or.inr ⟨SpecError.engineError msg, rfl⟩
      | ok u => exact hreg (Resource.mediaEngine h)
  | opNewApi h st =>
    simp only [step, new_api]
    cases lookup s h Kind.mediaEngine with
    | none => exact Or.inr ⟨SpecError.dependencyNotFound h, rfl⟩
    | some r =>
      cases hb : engineBuild st with
      | error msg => exact Or.inr ⟨SpecError.engineError msg, rfl⟩
      | ok u => exact hreg (Resource.api h)
  | opNewPeerConnection h st =>
    simp only [step, new_peer_connection]
    cases lookup s h Kind.api with
    | none => exact Or.inr ⟨SpecError.dependencyNotFound h, rfl⟩
    | some r =>
      cases hb : engineBuild st with
      | error msg => exact Or.inr ⟨SpecError.engineError msg, rfl⟩
      | ok u => exact hreg (Resource.peerConnection h)

theorem inv_step {s : State} (hInv : Inv s) (op : Op) : Inv (step s op).2 := by
  rcases step_shape s op with ⟨r, heq⟩ | ⟨e, heq⟩
  · rw [heq]
    constructor
    · intro p hp
      rcases List.mem_cons.mp hp with hp | hp
      · rw [hp]; exact Nat.lt_succ_self _
      · exact Nat.lt_succ_of_lt (hInv.1 p hp)
    · simp only [List.map_cons, List.nodup_cons]
      refine ⟨fun hmem => ?_, hInv.2⟩
      rcases List.mem_map.mp hmem with ⟨p, hpmem, hkey⟩
      exact absurd (hkey ▸ hInv.1 p hpmem) (lt_irrefl _)
  · rw [heq]; exact hInv

theorem inv_run {s : State} (hInv : Inv s) (ops : List Op) : Inv (run s ops) := by
  induction ops generalizing s with
  | nil => exact hInv
  | cons op ops ih => exact ih (inv_step hInv op)

theorem nextHandle_step_le (s : State) (op : Op) :
    s.nextHandle ≤ (step s op).2.nextHandle := by
  rcases step_shape s op with ⟨r, heq⟩ | ⟨e, heq⟩
  · rw [heq]; exact Nat.le_succ _
  · rw [heq]

theorem nextHandle_run_le (s : State) (ops : List Op) :
    s.nextHandle ≤ (run s ops).nextHandle := by
  induction ops generalizing s with
  | nil => exact Nat.le_refl _
  | cons op ops ih =>
    exact Nat.le_trans (nextHandle_step_le s op) (ih (step s op).2)

theorem okHandles_bounds (s : State) (ops : List Op) :
    ∀ h ∈ okHandles (runOutputs s ops), s.nextHandle ≤ h ∧ h < (run s ops).nextHandle := by
  induction ops generalizing s with
  | nil => intro h hmem; exact absurd hmem (by simp [runOutputs, okHandles])
  | cons op ops ih =>
    intro h hmem
    rw [runOutputs] at hmem
    rw [run]
    rcases step_shape s op with ⟨r, heq⟩ | ⟨e, heq⟩
    · rw [heq] at hmem ⊢
      simp only [okHandles, List.mem_cons] at hmem
      rcases hmem with hmem | hmem
      · subst hmem
        refine ⟨Nat.le_refl _, ?_⟩
        have hle := nextHandle_run_le
          { nextHandle := s.nextHandle + 1, table := (s.nextHandle, r) :: s.table } ops
        exact Nat.lt_of_lt_of_le (Nat.lt_succ_self _) hle
      · have hb := ih _ h hmem
        exact ⟨Nat.le_trans (Nat.le_succ _) hb.1, hb.2⟩
    · rw [heq] at hmem ⊢
      simp only [okHandles] at hmem
      exact ih s h hmem

theorem okHandles_pairwise (s : State) (ops : List Op) :
    (okHandles (runOutputs s ops)).Pairwise (· < ·) := by
  induction ops generalizing s with
  | nil => simp [runOutputs, okHandles]
  | cons op ops ih =>
    rw [runOutputs]
    rcases step_shape s op with ⟨r, heq⟩ | ⟨e, heq⟩
    · rw [heq]
      simp only [okHandles]
      refine List.Pairwise.cons ?_ (ih _)
      intro h2 hmem
      have hb := (okHandles_bounds _ ops h2 hmem).1
      exact Nat.lt_of_succ_le hb
    · rw [heq]
      simp only [okHandles]
      exact ih s

theorem findEntry_eq_none {h : Handle} {l : List (Handle × Resource)}
    (hkeys : ∀ p ∈ l, p.1 ≠ h) : findEntry h l = none := by
  induction l with
  | nil => rfl
  | cons p rest ih =>
    rw [findEntry, if_neg (hkeys p (List.mem_cons_self p rest))]
    exact ih fun q hq => hkeys q (List.mem_cons_of_mem p hq)

theorem lookup_eq_none_of_ge {s : State} (hInv : Inv s) {h : Handle} (k : Kind)
    (hge : s.nextHandle ≤ h) : lookup s h k = none := by
  have hkeys : ∀ p ∈ s.table, p.1 ≠ h := fun p hp =>
    Nat.ne_of_lt (Nat.lt_of_lt_of_le (hInv.1 p hp) hge)
  rw [lookup, findEntry_eq_none hkeys]

theorem findEntry_of_mem_nodup {h : Handle} {r : Resource}
    {l : List (Handle × Resource)} (hnd : (l.map Prod.fst).Nodup)
    (hmem : (h, r) ∈ l) : findEntry h l = some (h, r) := by
  induction l with
  | nil => exact absurd hmem (List.not_mem_nil _)
  | cons p rest ih =>
    by_cases hp : p.1 = h
    · rw [findEntry, if_pos hp]
      rcases List.mem_cons.mp hmem with hmem | hmem
      · rw [hmem]
      · exfalso
        have : h ∈ rest.map Prod.fst := List.mem_map.mpr ⟨(h, r), hmem, rfl⟩
        rw [List.map_cons, List.nodup_cons] at hnd
        exact hnd.1 (hp ▸ this)
    · rw [findEntry, if_neg hp]
      rcases List.mem_cons.mp hmem with hmem | hmem
      · exact absurd (congrArg Prod.fst hmem).symm hp
      · rw [List.map_cons, List.nodup_cons] at hnd
        exact ih hnd.2 hmem

theorem findEntry_some {h : Handle} {l : List (Handle × Resource)}
    {p : Handle × Resource} (hf : findEntry h l = some p) : p.1 = h ∧ p ∈ l := by
  induction l with
  | nil => exact absurd hf (by simp [findEntry])
  | cons q rest ih =>
    rw [findEntry] at hf
    by_cases hq : q.1 = h
    · rw [if_pos hq] at hf
      cases hf
      exact ⟨hq, List.mem_cons_self _ _⟩
    · rw [if_neg hq] at hf
      rcases ih hf with ⟨hkey, hmem⟩
      exact ⟨hkey, List.mem_cons_of_mem q hmem⟩

theorem lookup_step_mono {s : State} (hInv : Inv s) (op : Op) {h : Handle}
    {k : Kind} {r : Resource} (hl : lookup s h k = some r) :
    lookup (step s op).2 h k = some r := by
  rcases step_shape s op with ⟨r2, heq⟩ | ⟨e, heq⟩
  · have hfind : ∃ p, findEntry h s.table = some p := by
      rw [lookup] at hl
      cases hf : findEntry h s.table with
      | none => rw [hf] at hl; exact absurd hl (by simp)
      | some p => exact ⟨p, rfl⟩
    obtain ⟨p, hp⟩ := hfind
    have hlt : h < s.nextHandle := (findEntry_some hp).1 ▸ hInv.1 p (findEntry_some hp).2
    have hne : (s.nextHandle, r2).1 = h → False := fun hc =>
      absurd (hc ▸ hlt) (lt_irrefl h)
    rw [heq]
    rw [lookup] at hl ⊢
    rw [findEntry, if_neg hne]
    exact hl
  · rw [heq]
    exact hl

theorem lookup_run_mono {s : State} (hInv : Inv s) (ops : List Op) {h : Handle}
    {k : Kind} {r : Resource} (hl : lookup s h k = some r) :
    lookup (run s ops) h k = some r := by
  induction ops generalizing s with
  | nil => exact hl
  | cons op ops ih =>
    rw [run]
    exact ih (inv_step hInv op) (lookup_step_mono hInv op hl)

theorem lookup_kind {s : State} {h : Handle} {k : Kind} {r : Resource}
    (hl : lookup s h k = some r) : r.kind = k := by
  rw [lookup] at hl
  cases hfind : findEntry h s.table with
  | none => rw [hfind] at hl; exact absurd hl (by simp)
  | some p =>
    rw [hfind] at hl
    change (if p.2.kind = k then some p.2 else none) = some r at hl
    by_cases hk : p.2.kind = k
    · rw [if_pos hk] at hl
      cases hl
      exact hk
    · rw [if_neg hk] at hl
      exact absurd hl (by simp)

theorem get_config_some {s : State} {h : Handle} {c : Config}
    (hg : get_config s h = some c) :
    lookup s h Kind.configuration = some (Resource.configuration c) := by
  rw [get_config] at hg
  cases hl : lookup s h Kind.configuration with
  | none => rw [hl] at hg; exact absurd hg (by simp)
  | some r =>
    rw [hl] at hg
    cases r with
    | configuration c2 =>
      change some c2 = some c at hg
      cases hg
      rfl
    | registry => exact absurd hg (by simp)
    | mediaEngine d => exact absurd hg (by simp)
    | api d => exact absurd hg (by simp)
    | peerConnection d => exact absurd hg (by simp)

theorem lookup_wrong_kind {s : State} (hInv : Inv s) {h : Handle} {r : Resource}
    (hmem : (h, r) ∈ s.table) {k : Kind} (hk : Resource.kind r ≠ k) :
    lookup s h k = none := by
  rw [lookup, findEntry_of_mem_nodup hInv.2 hmem]
  change (if Resource.kind r = k then some r else none) = none
  rw [if_neg hk]

theorem insert_fresh {s : State} (hInv : Inv s) (r : Resource) :
    insert (allocate s).2 (allocate s).1 r =
      Except.ok { nextHandle := s.nextHandle + 1, table := (s.nextHandle, r) :: s.table } := by
  simp [allocate, insert, containsHandle_eq_false_of_lt hInv]

/-- C1: along every sequence of constructor calls from the initial state, the
successfully issued handles are strictly increasing — so no handle is ever
reissued and every new handle is distinct from all previously issued ones —
and `new_registry` on the reached state returns the fresh handle, which
immediately satisfies `registry_exists`. -/
theorem handles_never_reissued_and_registry_visible (ops : List Op) :
    (okHandles (runOutputs init ops)).Pairwise (· < ·) ∧
    (∀ h ∈ okHandles (runOutputs init ops), h < (run init ops).nextHandle) ∧
    (new_registry (run init ops)).1 = Except.ok (run init ops).nextHandle ∧
    registry_exists (new_registry (run init ops)).2 (run init ops).nextHandle = true := by
  have hInv := inv_run inv_init ops
  refine ⟨okHandles_pairwise init ops,
    fun h hm => (okHandles_bounds init ops h hm).2, ?_, ?_⟩
  · rw [new_registry, register_ok hInv]
  · rw [new_registry, register_ok hInv]
    simp [registry_exists, existsKind, lookup, findEntry, Resource.kind]

theorem handles_never_reissued_and_registry_visible_witness :
    0 < (run init [Op.opNewRegistry]).nextHandle ∧
    registry_exists (new_registry (run init [Op.opNewRegistry])).2
      (run init [Op.opNewRegistry]).nextHandle = true :=
  ⟨(handles_never_reissued_and_registry_visible [Op.opNewRegistry]).2.1 0 (by decide),
   (handles_never_reissued_and_registry_visible [Op.opNewRegistry]).2.2.2⟩

/-- C2: on every reachable state, an existence check or lookup for a handle
that was never issued returns false / not-found, a lookup scoped to a kind
other than the stored one returns not-found, and a successful lookup only
ever returns a resource of the queried kind. -/
theorem unknown_handles_return_not_found (ops : List Op) (h : Handle) (k : Kind)
    (r : Resource) :
    ((run init ops).nextHandle ≤ h →
      registry_exists (run init ops) h = false ∧
      media_engine_exists (run init ops) h = false ∧
      lookup (run init ops) h k = none) ∧
    ((h, r) ∈ (run init ops).table → Resource.kind r ≠ k →
      lookup (run init ops) h k = none) ∧
    (lookup (run init ops) h k = some r → Resource.kind r = k) := by
  have hInv := inv_run inv_init ops
  refine ⟨fun hge => ?_, fun hmem hk => lookup_wrong_kind hInv hmem hk,
    fun hl => lookup_kind hl⟩
  refine ⟨?_, ?_, lookup_eq_none_of_ge hInv k hge⟩
  · rw [registry_exists, existsKind, lookup_eq_none_of_ge hInv _ hge]
    rfl
  · rw [media_engine_exists, existsKind, lookup_eq_none_of_ge hInv _ hge]
    rfl

theorem unknown_handles_return_not_found_witness :
    (registry_exists init 5 = false ∧ media_engine_exists init 5 = false ∧
      lookup init 5 Kind.registry = none) ∧
    lookup (run init [Op.opNewRegistry]) 0 Kind.mediaEngine = none ∧
    Resource.kind Resource.registry = Kind.registry :=
  ⟨(unknown_handles_return_not_found [] 5 Kind.registry Resource.registry).1
      (by decide),
   (unknown_handles_return_not_found [Op.opNewRegistry] 0 Kind.mediaEngine
      Resource.registry).2.1 (by decide) (by decide),
   (unknown_handles_return_not_found [Op.opNewRegistry] 0 Kind.registry
      Resource.registry).2.2 (by decide)⟩

/-- C3: construction is all-or-nothing — on every reachable state, a
constructor call that returns an error leaves the registry state unchanged,
and the handle value that would have been allocated next does not exist for
any kind. -/
theorem construction_all_or_nothing (ops : List Op) (op : Op) (e : SpecError)
    (k : Kind) :
    (step (run init ops) op).1 = Except.error e →
    (step (run init ops) op).2 = run init ops ∧
    existsKind (run init ops) (run init ops).nextHandle k = false := by
  intro herr
  have hInv := inv_run inv_init ops
  constructor
  · rcases step_shape (run init ops) op with ⟨r, heq⟩ | ⟨e2, heq⟩
    · rw [heq] at herr
      exact absurd herr (by simp)
    · rw [heq]
  · rw [existsKind, lookup_eq_none_of_ge hInv k (Nat.le_refl _)]
    rfl

theorem construction_all_or_nothing_witness :
    (step init (Op.opNewMediaEngine 7 { wellFormed := true })).2 = init ∧
    existsKind init 0 Kind.mediaEngine = false :=
  construction_all_or_nothing [] (Op.opNewMediaEngine 7 { wellFormed := true })
    (SpecError.dependencyNotFound 7) Kind.mediaEngine (by rfl)

/-- C4: every dependent constructor given a handle that does not resolve to
a live resource of the declared dependency kind fails with
dependency-not-found and leaves the state unchanged. -/
theorem dependency_not_found_on_missing (s : State) (h : Handle) (st : Settings) :
    (lookup s h Kind.registry = none →
      new_media_engine s h st = (Except.error (SpecError.dependencyNotFound h), s)) ∧
    (lookup s h Kind.mediaEngine = none →
      new_api s h st = (Except.error (SpecError.dependencyNotFound h), s)) ∧
    (lookup s h Kind.api = none →
      new_peer_connection s h st = (Except.error (SpecError.dependencyNotFound h), s)) := by
  refine ⟨fun hl => ?_, fun hl => ?_, fun hl => ?_⟩
  · unfold new_media_engine
    rw [hl]
  · unfold new_api
    rw [hl]
  · unfold new_peer_connection
    rw [hl]

theorem dependency_not_found_on_missing_witness :
    new_media_engine init 3 { wellFormed := true } =
      (Except.error (SpecError.dependencyNotFound 3), init) ∧
    new_api init 3 { wellFormed := true } =
      (Except.error (SpecError.dependencyNotFound 3), init) ∧
    new_peer_connection init 3 { wellFormed := true } =
      (Except.error (SpecError.dependencyNotFound 3), init) :=
  ⟨(dependency_not_found_on_missing init 3 { wellFormed := true }).1 (by rfl),
   (dependency_not_found_on_missing init 3 { wellFormed := true }).2.1 (by rfl),
   (dependency_not_found_on_missing init 3 { wellFormed := true }).2.2 (by rfl)⟩

/-- C5 counterexample: the boundary surface exported by `rustler::init!` in
`lib.rs` does not contain an operation named `new_config`. -/
theorem new_config_not_exported : "new_config" ∉ exportedNifs := by
  decide

/-- C5 (amended): the Configuration Store operation `new_config` validates
raw settings before registering — on validation failure it returns a
descriptive error with the state unchanged, on success it returns the fresh
handle under which the validated configuration is registered — but the
exported boundary surface does not expose an operation named `new_config`. -/
theorem config_store_contract (ops : List Op) (raw : RawSettings) (msg : String)
    (c : Config) :
    "new_config" ∉ exportedNifs ∧
    (validateSettings raw = Except.error msg →
      new_config (run init ops) raw =
        (Except.error (SpecError.configError msg), run init ops)) ∧
    (validateSettings raw = Except.ok c →
      (new_config (run init ops) raw).1 = Except.ok (run init ops).nextHandle ∧
      get_config (new_config (run init ops) raw).2 (run init ops).nextHandle = some c) := by
  have hInv := inv_run inv_init ops
  refine ⟨by decide, fun hv => ?_, fun hv => ?_⟩
  · unfold new_config
    rw [hv]
  · unfold new_config
    rw [hv]
    change (register (run init ops) (Resource.configuration c)).1 = _ ∧
      get_config (register (run init ops) (Resource.configuration c)).2 _ = _
    rw [register_ok hInv]
    refine ⟨rfl, ?_⟩
    simp [get_config, lookup, findEntry, Resource.kind]

theorem config_store_contract_witness :
    new_config init { iceServerUrls := ["bogus"] } =
      (Except.error (SpecError.configError "malformed ICE server URL"), init) ∧
    (new_config init { iceServerUrls := ["stun:example.org"] }).1 = Except.ok 0 :=
  ⟨(config_store_contract [] { iceServerUrls := ["bogus"] }
      "malformed ICE server URL" { iceServerUrls := [] }).2.1 (by rfl),
   ((config_store_contract [] { iceServerUrls := ["stun:example.org"] } ""
      { iceServerUrls := ["stun:example.org"] }).2.2 (by rfl)).1⟩

/-- C6: every boundary call returns a value — either a handle or a
structured error value with the state unchanged; no input makes a call fall
outside these two outcomes. -/
theorem boundary_calls_always_return (s : State) (op : Op) :
    (∃ h, (step s op).1 = Except.ok h) ∨
    (∃ e, (step s op).1 = Except.error e ∧ (step s op).2 = s) := by
  rcases step_shape s op with ⟨r, heq⟩ | ⟨e, heq⟩
  · exact Or.inl ⟨s.nextHandle, by rw [heq]⟩
  · exact Or.inr ⟨e, by rw [heq], by rw [heq]⟩

/-- C7: Resource Table `insert` fails exactly on a duplicate handle, and on
every reachable state inserting under a freshly allocated handle succeeds —
the failure branch is unreachable under the allocator's guarantee. -/
theorem insert_fails_only_on_duplicate (s : State) (h : Handle) (r r2 : Resource)
    (ops : List Op) :
    ((∃ e, insert s h r = Except.error e) ↔ h ∈ s.table.map Prod.fst) ∧
    (∃ s2, insert (allocate (run init ops)).2 (allocate (run init ops)).1 r2 =
      Except.ok s2) := by
  constructor
  · constructor
    · rintro ⟨e, he⟩
      rw [insert] at he
      by_cases hc : containsHandle h s.table
      · exact containsHandle_eq_true.mp hc
      · rw [if_neg hc] at he
        exact absurd he (by simp)
    · intro hmem
      rw [insert, if_pos (containsHandle_eq_true.mpr hmem)]
      exact ⟨InsertError.duplicateHandle, rfl⟩
  · exact ⟨_, insert_fresh (inv_run inv_init ops) r2⟩

theorem insert_fails_only_on_duplicate_witness :
    (∃ e, insert { nextHandle := 1, table := [(0, Resource.registry)] } 0
      Resource.registry = Except.error e) ∧
    (∃ s2, insert (allocate (run init [])).2 (allocate (run init [])).1
      Resource.registry = Except.ok s2) :=
  ⟨(insert_fails_only_on_duplicate { nextHandle := 1, table := [(0, Resource.registry)] }
      0 Resource.registry Resource.registry []).1.mpr (by decide),
   (insert_fails_only_on_duplicate { nextHandle := 1, table := [(0, Resource.registry)] }
      0 Resource.registry Resource.registry []).2⟩

/-- C8: reads are idempotent — repeated `get_config` on the same state
returns identical values, and on every reachable state an existence check
that is true stays true, and a readable configuration stays readable with
the same value, across any further sequence of calls. -/
theorem reads_idempotent_and_existence_stable (ops ops2 : List Op) (h : Handle)
    (k : Kind) (c : Config) :
    (get_config (run init ops) h = get_config (run init ops) h) ∧
    (existsKind (run init ops) h k = true →
      existsKind (run (run init ops) ops2) h k = true) ∧
    (get_config (run init ops) h = some c →
      get_config (run (run init ops) ops2) h = some c) := by
  have hInv := inv_run inv_init ops
  refine ⟨rfl, fun he => ?_, fun hg => ?_⟩
  · rw [existsKind] at he
    cases hl : lookup (run init ops) h k with
    | none => rw [hl] at he; exact absurd he (by simp)
    | some r =>
      rw [existsKind, lookup_run_mono hInv ops2 hl]
      rfl
  · have hl2 := lookup_run_mono hInv ops2 (get_config_some hg)
    rw [get_config, hl2]

theorem reads_idempotent_and_existence_stable_witness :
    existsKind (run (run init [Op.opNewRegistry]) [Op.opNewRegistry]) 0
      Kind.registry = true ∧
    get_config (run (run init [Op.opNewConfig { iceServerUrls := ["stun:example.org"] }])
      [Op.opNewRegistry]) 0 = some { iceServerUrls := ["stun:example.org"] } :=
  ⟨(reads_idempotent_and_existence_stable [Op.opNewRegistry] [Op.opNewRegistry] 0
      Kind.registry { iceServerUrls := [] }).2.1 (by rfl),
   (reads_idempotent_and_existence_stable
      [Op.opNewConfig { iceServerUrls := ["stun:example.org"] }] [Op.opNewRegistry] 0
      Kind.registry { iceServerUrls := ["stun:example.org"] }).2.2 (by rfl)⟩

/-- C9: the exported NIF surface contains existence checks only for the
Registry and MediaEngine kinds; `new_api` and `new_peer_connection` are
exported but no `api_exists` or `peer_connection_exists` check is. -/
theorem exported_exists_checks_only_registry_and_media_engine :
    "registry_exists" ∈ exportedNifs ∧
    "media_engine_exists" ∈ exportedNifs ∧
    "new_api" ∈ exportedNifs ∧
    "new_peer_connection" ∈ exportedNifs ∧
    "api_exists" ∉ exportedNifs ∧
    "peer_connection_exists" ∉ exportedNifs ∧
    exportedNifs.filter nameIsExistsCheck =
      ["media_engine_exists", "registry_exists"] := by
  decide

/-- C10: `on_load` returns `true` for every environment and load-info
argument, and registers exactly the single native resource type
`state::Ref`. -/
theorem on_load_registers_state_ref (e : Env) (t : Term) :
    (on_load e t).result = true ∧
    (on_load e t).registeredResourceTypes = [ResourceTypeName.stateRef] :=
  ⟨rfl, rfl⟩

end Specter
